import Mathlib

/-
Verification of the fluoride dependency-injection library
(src/packages/fluoride/index.ts) through a shallow embedding of its
runtime semantics.

Modelling decisions, each tied to the source:

* Interface tokens (the classes used as DI names) are opaque identities
  used only as map keys; we model them as natural numbers (Iface).
* JS object identity is modelled by an allocation counter: every object
  creation (a "new ctor(...)" inside a maker, or a "new Graph(...)" in
  GraphBuilder.build) draws a fresh id from St.nextId.  Two objects are
  the same (===) iff their ids are equal.
* The hidden, non-enumerable, non-configurable properties that
  scopes.singleton and scopes.weak attach to a graph object via
  Object.defineProperty (keys singletonSymbol and weakSymbol,
  index.ts lines 102-103, 120-130, 147-157) are modelled as two
  per-graph-id association tables in the state (St.sing, St.weakp).
  Object.defineProperty on a key that is already present throws a
  TypeError, because the existing property is non-configurable and the
  newly supplied value (a freshly allocated Map or WeakMap) is never
  SameValue with the stored one; defining an absent key installs it.
  Mutating the stored Map (map.set) updates the table content in place.
* JS Map get/set keyed on token identity is modelled by association
  lists (assocGet / assocSet); Map.set overwrites the value of an
  existing key in place and appends a fresh key at the end, which is
  exactly what assocSet does.
* The providers stored by the builder are always scope(maker) where
  maker is (graph) => new ctor(graph) (GraphBuilder.add, line 213) or
  () => new ctor() (GraphBuilder.start, line 195), and scope is one of
  scopes.none / scopes.singleton / scopes.weak.  We therefore store the
  pair (ScopeKind, Ctor) and interpret it in runScopeWith, a faithful
  defunctionalisation of the three scope bodies.  A constructor body is
  either empty (no dependencies) or resolves a list of interfaces from
  the graph it receives, in order, before the object is produced.
* Graph.resolve (lines 76-86) throws "Unsatisfied dependency for iface"
  when the map has no provider for the token; we model the thrown JS
  errors with the Err type, and a JS throw aborts the whole resolution,
  so the state at the throw point is discarded with the exception.
* JS recursion is unbounded; the Lean interpreter takes a fuel
  parameter and reports Err.fuelOut when it runs out.  The lookup of
  the provider happens before any fuel is consumed, mirroring the fact
  that the unbound-token failure in the source does not depend on any
  recursion.
* Every maker invocation is recorded in St.calls so that claims about
  how often a provider runs are observable.
-/

namespace Fluoride

/-- Interface tokens: opaque identities used as map keys (the classes of
the TypeScript source, compared by identity). -/
abbrev Iface := Nat

/-- The three built-in scopes of the scopes namespace
(index.ts lines 101-164). -/
inductive ScopeKind where
  | none
  | singleton
  | weak
deriving DecidableEq, Repr

/-- A constructor as used by GraphBuilder.start / GraphBuilder.add:
either an EmptyConstructor (new ctor(), no dependencies) or a
GraphConstructor whose body resolves the listed interfaces, in order,
from the graph it is given. -/
inductive Ctor where
  | empty
  | graphDep (deps : List Iface)
deriving DecidableEq, Repr

/-- The interfaces a constructor resolves from its graph. -/
def Ctor.deps : Ctor → List Iface
  | Ctor.empty => []
  | Ctor.graphDep ds => ds

/-- Runtime values: an object with identity, or the scopes.singleton
function itself, which the buggy weak scope stores into its cache
(weakMap.set(iface, singleton), index.ts line 160). -/
inductive Value where
  | obj (id : Nat)
  | singletonFn
deriving DecidableEq, Repr

/-- Association-list lookup, the model of JS Map.get keyed on
identity. -/
def assocGet {α : Type} : List (Nat × α) → Nat → Option α
  | [], _ => Option.none
  | (k, v) :: rest, k2 => if k = k2 then Option.some v else assocGet rest k2

/-- Association-list insertion, the model of JS Map.set: overwrite the
value of an existing key in place, append a fresh key at the end. -/
def assocSet {α : Type} : List (Nat × α) → Nat → α → List (Nat × α)
  | [], k2, v2 => [(k2, v2)]
  | (k, v) :: rest, k2, v2 =>
    if k = k2 then (k, v2) :: rest else (k, v) :: assocSet rest k2 v2

/-- Update the value of a key when it is present; no-op when absent.
Used to model in-place mutation of a Map that is stored in a hidden
graph property. -/
def assocUpdate {α : Type} : List (Nat × α) → Nat → (α → α) → List (Nat × α)
  | [], _, _ => []
  | (k, v) :: rest, k2, f =>
    if k = k2 then (k, f v) :: rest else (k, v) :: assocUpdate rest k2 f

/-- A scope cache: the content of the Map / WeakMap stored in a hidden
graph property, keyed by interface token. -/
abbrev Cache := List (Iface × Value)

/-- What the builder stores for one interface: the scope it was bound
with and the constructor the maker closes over. -/
abbrev Binding := ScopeKind × Ctor

/-- The binding map of a builder or graph. -/
abbrev BindMap := List (Iface × Binding)

/-- The mutable world: the allocation counter giving object identity,
the hidden singletonSymbol and weakSymbol properties of every graph
object (keyed by the graph id), and the log of maker invocations
(which interface a maker was invoked for, in order). -/
structure St where
  nextId : Nat
  sing : List (Nat × Cache)
  weakp : List (Nat × Cache)
  calls : List Iface
deriving DecidableEq, Repr

/-- The initial world: nothing allocated, no hidden properties, no
maker ever invoked. -/
def St.init : St := { nextId := 0, sing := [], weakp := [], calls := [] }

/-- A DI graph object: its identity and its own copy of the binding map
(the Graph constructor, index.ts lines 60-64, copies the map it is
given). -/
structure Graph where
  gid : Nat
  map : BindMap
deriving DecidableEq, Repr

/-- A graph builder: the accumulated binding map
(index.ts lines 169-225). -/
structure GraphBuilder where
  map : BindMap
deriving DecidableEq, Repr

/-- Mutate the cache stored under singletonSymbol on graph gid:
singletonMap.set(iface, value) (index.ts line 133) and, through the
aliasing bug, weakMap.set(iface, singleton) (line 160) when the weak
map was installed under singletonSymbol. -/
def setSing (st : St) (gid : Nat) (i : Iface) (v : Value) : St :=
  { st with sing := assocUpdate st.sing gid (fun c => assocSet c i v) }

/-- Mutate the cache stored under weakSymbol on graph gid.  Reachable
only when a weakSymbol property already exists, which the shipped code
never creates; kept for faithfulness to line 159-160 in that branch. -/
def setWeak (st : St) (gid : Nat) (i : Iface) (v : Value) : St :=
  { st with weakp := assocUpdate st.weakp gid (fun c => assocSet c i v) }

/-- Errors a resolution can throw: the unsatisfied-dependency Error of
Graph.resolve (line 82, carrying the requested interface), the
TypeError raised by Object.defineProperty when it re-defines an
existing non-configurable property, and the out-of-fuel marker of the
embedding (JS has no such failure; it stands for a non-terminating
recursion). -/
inductive Err where
  | unsatisfied (iface : Iface)
  | typeError
  | fuelOut
deriving DecidableEq, Repr

/-- Resolve every interface of a dependency list in order against the
same graph, threading the state; the model of a constructor body that
performs graph.resolve(Dep1); graph.resolve(Dep2); ...  The resolver
itself is passed in as res to keep the recursion structural. -/
def resolveDepsWith (res : Iface → St → Except Err (Value × St)) :
    List Iface → St → Except Err St
  | [], st => Except.ok st
  | d :: rest, st =>
    match res d st with
    | Except.error e => Except.error e
    | Except.ok (_, st1) => resolveDepsWith res rest st1

/-- Run a maker (graph => new ctor(graph)): allocate the new object,
record the invocation, run the constructor body, return the object.
JS allocates the object before the constructor body runs, so the
object id is drawn before the dependencies are resolved. -/
def runMakerWith (res : Iface → St → Except Err (Value × St))
    (ct : Ctor) (i : Iface) (st : St) : Except Err (Value × St) :=
  let v := Value.obj st.nextId
  let st0 : St := { st with nextId := st.nextId + 1, calls := st.calls ++ [i] }
  match resolveDepsWith res ct.deps st0 with
  | Except.error e => Except.error e
  | Except.ok st1 => Except.ok (v, st1)

/-- Interpret one scope wrapper applied to one maker, exactly following
the bodies of scopes.none (lines 109-112), scopes.singleton
(lines 117-136) and scopes.weak (lines 143-163).  In particular the
weak scope reads the descriptor of weakSymbol but defines
singletonSymbol (line 152), and caches Value.singletonFn, the
scopes.singleton function itself (line 160), not the constructed
object. -/
def runScopeWith (res : Iface → St → Except Err (Value × St))
    (sk : ScopeKind) (ct : Ctor) (gid : Nat) (i : Iface) (st : St) :
    Except Err (Value × St) :=
  match sk with
  | ScopeKind.none => runMakerWith res ct i st
  | ScopeKind.singleton =>
    match assocGet st.sing gid with
    | Option.some c =>
      match assocGet c i with
      | Option.some v => Except.ok (v, setSing st gid i v)
      | Option.none =>
        match runMakerWith res ct i st with
        | Except.error e => Except.error e
        | Except.ok (v, st2) => Except.ok (v, setSing st2 gid i v)
    | Option.none =>
      let st1 : St := { st with sing := assocSet st.sing gid [] }
      match runMakerWith res ct i st1 with
      | Except.error e => Except.error e
      | Except.ok (v, st2) => Except.ok (v, setSing st2 gid i v)
  | ScopeKind.weak =>
    match assocGet st.weakp gid with
    | Option.some c =>
      match assocGet c i with
      | Option.some v => Except.ok (v, setWeak st gid i Value.singletonFn)
      | Option.none =>
        match runMakerWith res ct i st with
        | Except.error e => Except.error e
        | Except.ok (v, st2) => Except.ok (v, setWeak st2 gid i Value.singletonFn)
    | Option.none =>
      match assocGet st.sing gid with
      | Option.some _ => Except.error Err.typeError
      | Option.none =>
        let st1 : St := { st with sing := assocSet st.sing gid [] }
        match runMakerWith res ct i st1 with
        | Except.error e => Except.error e
        | Except.ok (v, st2) => Except.ok (v, setSing st2 gid i Value.singletonFn)

/-- Graph.resolve (index.ts lines 76-86): look up the bound,
scope-wrapped provider for the token; if absent, throw the
unsatisfied-dependency error carrying the token; otherwise invoke the
provider on (this graph, this token).  The fuel bounds the recursion
depth of the embedding; the provider lookup and the unbound failure do
not consume fuel. -/
def resolve : Nat → Graph → Iface → St → Except Err (Value × St)
  | 0, g, i, _st =>
    match assocGet g.map i with
    | Option.none => Except.error (Err.unsatisfied i)
    | Option.some _ => Except.error Err.fuelOut
  | Nat.succ f, g, i, st =>
    match assocGet g.map i with
    | Option.none => Except.error (Err.unsatisfied i)
    | Option.some (sk, ct) =>
      runScopeWith (fun d st2 => resolve f g d st2) sk ct g.gid i st

/-- GraphBuilder.start (index.ts lines 189-197): a brand-new builder
holding exactly one binding.  The TypeScript signature restricts the
constructor to an EmptyConstructor, so the stored constructor is
Ctor.empty. -/
def GraphBuilder.start (i : Iface) (sk : ScopeKind := ScopeKind.none) :
    GraphBuilder :=
  ⟨assocSet [] i (sk, Ctor.empty)⟩

/-- GraphBuilder.add (index.ts lines 206-217): copy the accumulated map
(new Map(this.map)), set the new binding on the copy, return a new
builder around the copy.  The body performs no runtime dependency
check and never throws; the dependency check of the original is the
compile-time type constraint that degenerates the return type to
never. -/
def GraphBuilder.add (b : GraphBuilder) (i : Iface) (ct : Ctor)
    (sk : ScopeKind := ScopeKind.none) : GraphBuilder :=
  ⟨assocSet b.map i (sk, ct)⟩

/-- GraphBuilder.build (index.ts lines 222-224): allocate a new Graph
object around a copy of the accumulated map.  Allocation of the graph
object draws a fresh identity from the counter; a freshly allocated
object carries no hidden properties. -/
def GraphBuilder.build (b : GraphBuilder) (st : St) : Graph × St :=
  (⟨st.nextId, b.map⟩, { st with nextId := st.nextId + 1 })

/-- Graph.modify (index.ts lines 93-95): a new builder seeded with this
graph bindings; the graph itself is untouched. -/
def Graph.modify (g : Graph) : GraphBuilder := ⟨g.map⟩

/-- Characterisation of lookup after insertion: the inserted key reads
back the inserted value, every other key is untouched. -/
theorem assocGet_assocSet {α : Type} (m : List (Nat × α)) (k k2 : Nat) (v : α) :
    assocGet (assocSet m k v) k2 =
      if k = k2 then Option.some v else assocGet m k2 := by
  induction m with
  | nil => simp [assocGet, assocSet]
  | cons p rest ih =>
    obtain ⟨k1, v1⟩ := p
    simp only [assocSet]
    by_cases h1 : k1 = k
    · subst h1
      by_cases h2 : k1 = k2 <;> simp [assocGet, h2]
    · by_cases h2 : k1 = k2
      · have hk : ¬ k = k2 := by omega
        have hk2 : ¬ k2 = k := by omega
        simp [assocGet, h1, h2, hk, hk2]
      · simp [assocGet, h1, h2, ih]

/-- Characterisation of lookup after an in-place update: the updated
key reads back the function applied to the old value (nothing when the
key was absent), every other key is untouched. -/
theorem assocGet_assocUpdate {α : Type} (m : List (Nat × α)) (k k2 : Nat)
    (f : α → α) :
    assocGet (assocUpdate m k f) k2 =
      if k = k2 then Option.map f (assocGet m k) else assocGet m k2 := by
  induction m with
  | nil => simp [assocGet, assocUpdate]
  | cons p rest ih =>
    obtain ⟨k1, v1⟩ := p
    simp only [assocUpdate]
    by_cases h1 : k1 = k
    · subst h1
      by_cases h2 : k1 = k2 <;> simp [assocGet, h2]
    · by_cases h2 : k1 = k2
      · have hk : ¬ k = k2 := by omega
        have hk2 : ¬ k2 = k := by omega
        simp [assocGet, h1, h2, hk, hk2]
      · simp [assocGet, h1, h2, ih]

/-- Updating an absent key changes nothing. -/
theorem assocUpdate_of_get_none {α : Type} (m : List (Nat × α)) (k : Nat)
    (f : α → α) (h : assocGet m k = Option.none) : assocUpdate m k f = m := by
  induction m with
  | nil => simp [assocUpdate]
  | cons p rest ih =>
    obtain ⟨k1, v1⟩ := p
    simp only [assocGet] at h
    by_cases h1 : k1 = k
    · simp [h1] at h
    · simp [h1] at h
      simp [assocUpdate, h1, ih h]

/-- Re-inserting the value a key already holds changes nothing. -/
theorem assocSet_self_of_get {α : Type} (m : List (Nat × α)) (k : Nat)
    (v : α) (h : assocGet m k = Option.some v) : assocSet m k v = m := by
  induction m with
  | nil => simp [assocGet] at h
  | cons p rest ih =>
    obtain ⟨k1, v1⟩ := p
    simp only [assocGet] at h
    by_cases h1 : k1 = k
    · simp [h1] at h
      simp [assocSet, h1, h]
    · simp [h1] at h
      simp [assocSet, h1, ih h]

/-- Updating a present key with a function that fixes its value changes
nothing. -/
theorem assocUpdate_of_fix {α : Type} (m : List (Nat × α)) (k : Nat)
    (f : α → α) (c : α) (hget : assocGet m k = Option.some c)
    (hfix : f c = c) : assocUpdate m k f = m := by
  induction m with
  | nil => simp [assocGet] at hget
  | cons p rest ih =>
    obtain ⟨k1, v1⟩ := p
    simp only [assocGet] at hget
    by_cases h1 : k1 = k
    · simp [h1] at hget
      subst hget
      simp [assocUpdate, h1, hfix]
    · simp [h1] at hget
      simp [assocUpdate, h1, ih hget]

/-- A cache entry for interface i is present on graph gid under the
singletonSymbol property. -/
def KeyIn (st : St) (gid : Nat) (i : Iface) : Prop :=
  ∃ c, assocGet st.sing gid = Option.some c ∧ (assocGet c i).isSome = true

/-- How one successful interpreter step may change the world: cache
entries and singletonSymbol properties are never removed, weakSymbol
properties are never created, the call log only grows at the end, and
the allocation counter never decreases. -/
structure StepOk (st st2 : St) : Prop where
  keys : ∀ gid i, KeyIn st gid i → KeyIn st2 gid i
  slot : ∀ gid, (assocGet st.sing gid).isSome = true →
    (assocGet st2.sing gid).isSome = true
  weakDom : ∀ gid, (assocGet st2.weakp gid).isSome = true →
    (assocGet st.weakp gid).isSome = true
  callsM : ∃ l, st2.calls = st.calls ++ l
  nid : st.nextId ≤ st2.nextId

theorem stepOk_refl (st : St) : StepOk st st :=
  ⟨fun _ _ h => h, fun _ h => h, fun _ h => h, ⟨[], by simp⟩, Nat.le_refl _⟩

theorem stepOk_trans {a b c : St} (h1 : StepOk a b) (h2 : StepOk b c) :
    StepOk a c := by
  refine ⟨fun gid i h => h2.keys gid i (h1.keys gid i h),
    fun gid h => h2.slot gid (h1.slot gid h),
    fun gid h => h1.weakDom gid (h2.weakDom gid h), ?_,
    Nat.le_trans h1.nid h2.nid⟩
  obtain ⟨l1, hl1⟩ := h1.callsM
  obtain ⟨l2, hl2⟩ := h2.callsM
  exact ⟨l1 ++ l2, by simp [hl2, hl1]⟩

/-- Allocating an object and logging a maker call changes neither the
hidden properties nor (monotonically) anything StepOk watches. -/
theorem stepOk_bump (st : St) (i : Iface) :
    StepOk st { st with nextId := st.nextId + 1, calls := st.calls ++ [i] } :=
  ⟨fun _ _ h => h, fun _ h => h, fun _ h => h, ⟨[i], rfl⟩, Nat.le_succ _⟩

/-- Writing one cache entry under singletonSymbol only grows the
caches. -/
theorem stepOk_setSing (st : St) (gid : Nat) (i : Iface) (v : Value) :
    StepOk st (setSing st gid i v) := by
  refine ⟨?_, ?_, fun _ h => h, ⟨[], by simp [setSing]⟩, Nat.le_refl _⟩
  · intro gid2 i2 hk
    obtain ⟨c, hc, hkey⟩ := hk
    by_cases hg : gid = gid2
    · subst hg
      refine ⟨assocSet c i v, ?_, ?_⟩
      · simp [setSing, assocGet_assocUpdate, hc]
      · rw [assocGet_assocSet]
        by_cases hi : i = i2 <;> simp [hi, hkey]
    · exact ⟨c, by simp [setSing, assocGet_assocUpdate, hg, hc], hkey⟩
  · intro gid2 hs
    by_cases hg : gid = gid2
    · subst hg
      cases hc : assocGet st.sing gid with
      | none => simp [hc] at hs
      | some c => simp [setSing, assocGet_assocUpdate, hc]
    · simp [setSing, assocGet_assocUpdate, hg, hs]

/-- Writing one cache entry under weakSymbol changes no singleton data
and creates no weakSymbol property (assocUpdate never adds a key). -/
theorem stepOk_setWeak (st : St) (gid : Nat) (i : Iface) (v : Value) :
    StepOk st (setWeak st gid i v) := by
  refine ⟨fun _ _ h => h, fun _ h => h, ?_, ⟨[], by simp [setWeak]⟩,
    Nat.le_refl _⟩
  intro gid2 hs
  by_cases hg : gid = gid2
  · subst hg
    cases hc : assocGet st.weakp gid with
    | none => simp [setWeak, assocGet_assocUpdate, hc] at hs
    | some c => simp [hc]
  · simp only [setWeak, assocGet_assocUpdate, if_neg hg] at hs
    exact hs

/-- Installing a fresh empty cache under singletonSymbol on a graph
that had none only grows the caches. -/
theorem stepOk_define (st : St) (gid : Nat)
    (h : assocGet st.sing gid = Option.none) :
    StepOk st { st with sing := assocSet st.sing gid [] } := by
  refine ⟨?_, ?_, fun _ h2 => h2, ⟨[], by simp⟩, Nat.le_refl _⟩
  · intro gid2 i2 hk
    obtain ⟨c, hc, hkey⟩ := hk
    by_cases hg : gid = gid2
    · subst hg; rw [h] at hc; cases hc
    · exact ⟨c, by simp [assocGet_assocSet, hg, hc], hkey⟩
  · intro gid2 hs
    by_cases hg : gid = gid2
    · subst hg; rw [h] at hs; cases hs
    · simp [assocGet_assocSet, hg, hs]

/-- StepOk for a whole dependency list, given StepOk for the resolver
it uses. -/
theorem stepOk_resolveDepsWith (res : Iface → St → Except Err (Value × St))
    (H : ∀ d st v st2, res d st = Except.ok (v, st2) → StepOk st st2) :
    ∀ (deps : List Iface) (st st2 : St),
      resolveDepsWith res deps st = Except.ok st2 → StepOk st st2 := by
  intro deps
  induction deps with
  | nil =>
    intro st st2 h
    simp only [resolveDepsWith] at h
    cases h
    exact stepOk_refl _
  | cons d rest ih =>
    intro st st2 h
    simp only [resolveDepsWith] at h
    cases hres : res d st with
    | error e => rw [hres] at h; cases h
    | ok p =>
      obtain ⟨v, st1⟩ := p
      rw [hres] at h
      exact stepOk_trans (H d st v st1 hres) (ih st1 st2 h)

/-- StepOk for one maker invocation. -/
theorem stepOk_runMakerWith (res : Iface → St → Except Err (Value × St))
    (H : ∀ d st v st2, res d st = Except.ok (v, st2) → StepOk st st2)
    (ct : Ctor) (i : Iface) (st : St) (v : Value) (st2 : St)
    (h : runMakerWith res ct i st = Except.ok (v, st2)) : StepOk st st2 := by
  simp only [runMakerWith] at h
  cases hdeps : resolveDepsWith res ct.deps
      { st with nextId := st.nextId + 1, calls := st.calls ++ [i] } with
  | error e => rw [hdeps] at h; cases h
  | ok st1 =>
    rw [hdeps] at h
    cases h
    exact stepOk_trans (stepOk_bump st i)
      (stepOk_resolveDepsWith res H ct.deps _ _ hdeps)

/-- StepOk for one scope-wrapped provider invocation. -/
theorem stepOk_runScopeWith (res : Iface → St → Except Err (Value × St))
    (H : ∀ d st v st2, res d st = Except.ok (v, st2) → StepOk st st2)
    (sk : ScopeKind) (ct : Ctor) (gid : Nat) (i : Iface) (st : St)
    (v : Value) (st2 : St)
    (h : runScopeWith res sk ct gid i st = Except.ok (v, st2)) :
    StepOk st st2 := by
  cases sk with
  | none =>
    exact stepOk_runMakerWith res H ct i st v st2 h
  | singleton =>
    simp only [runScopeWith] at h
    split at h
    · -- singletonSymbol property present
      rename_i c hslot
      split at h
      · -- cache hit
        rename_i v0 hkey
        cases h
        exact stepOk_setSing _ _ _ _
      · -- cache miss: run the maker, then cache its result
        rename_i hkey
        split at h
        · cases h
        · rename_i vm stm hmk
          cases h
          exact stepOk_trans (stepOk_runMakerWith res H ct i st _ _ hmk)
            (stepOk_setSing _ _ _ _)
    · -- singletonSymbol property absent: install it, run the maker
      rename_i hslot
      split at h
      · cases h
      · rename_i vm stm hmk
        cases h
        exact stepOk_trans (stepOk_define st gid hslot)
          (stepOk_trans (stepOk_runMakerWith res H ct i _ _ _ hmk)
            (stepOk_setSing _ _ _ _))
  | weak =>
    simp only [runScopeWith] at h
    split at h
    · -- weakSymbol property present (never created by the code itself)
      rename_i c hslot
      split at h
      · rename_i v0 hkey
        cases h
        exact stepOk_setWeak st gid i Value.singletonFn
      · rename_i hkey
        split at h
        · cases h
        · rename_i vm stm hmk
          cases h
          exact stepOk_trans (stepOk_runMakerWith res H ct i st _ _ hmk)
            (stepOk_setWeak _ _ _ _)
    · -- weakSymbol property absent
      rename_i hslot
      split at h
      · -- singletonSymbol already defined: defineProperty throws
        cases h
      · rename_i hsing
        split at h
        · cases h
        · rename_i vm stm hmk
          cases h
          exact stepOk_trans (stepOk_define st gid hsing)
            (stepOk_trans (stepOk_runMakerWith res H ct i _ _ _ hmk)
              (stepOk_setSing _ _ _ _))

/-- StepOk for a full resolution: a successful Graph.resolve only grows
the caches, the call log and the allocation counter. -/
theorem stepOk_resolve :
    ∀ (fuel : Nat) (g : Graph) (i : Iface) (st : St) (v : Value) (st2 : St),
      resolve fuel g i st = Except.ok (v, st2) → StepOk st st2 := by
  intro fuel
  induction fuel with
  | zero =>
    intro g i st v st2 h
    simp only [resolve] at h
    cases hm : assocGet g.map i <;> rw [hm] at h <;> cases h
  | succ f ih =>
    intro g i st v st2 h
    simp only [resolve] at h
    cases hm : assocGet g.map i with
    | none => rw [hm] at h; cases h
    | some b =>
      obtain ⟨sk, ct⟩ := b
      rw [hm] at h
      exact stepOk_runScopeWith _ (fun d st3 v2 st4 hh => ih g d st3 v2 st4 hh)
        sk ct g.gid i st v st2 h

/-- Every object id stored in a cache has already been allocated. -/
def CacheWf (n : Nat) (c : Cache) : Prop :=
  ∀ i a, assocGet c i = Option.some (Value.obj a) → a < n

/-- Every graph id carrying a hidden property, and every object id
cached under it, has already been allocated. -/
def SlotWf (n : Nat) (s : List (Nat × Cache)) : Prop :=
  ∀ gid c, assocGet s gid = Option.some c → gid < n ∧ CacheWf n c

/-- Well-formedness of a world: all identities it mentions are below
the allocation counter.  Every state reachable through the public API
from St.init satisfies this, because identities are only ever drawn
from the counter. -/
def St.Wf (st : St) : Prop :=
  SlotWf st.nextId st.sing ∧ SlotWf st.nextId st.weakp

theorem cacheWf_mono {n m : Nat} {c : Cache} (h : n ≤ m)
    (hc : CacheWf n c) : CacheWf m c :=
  fun i a hget => Nat.lt_of_lt_of_le (hc i a hget) h

theorem slotWf_mono {n m : Nat} {s : List (Nat × Cache)} (h : n ≤ m)
    (hs : SlotWf n s) : SlotWf m s :=
  fun gid c hget =>
    ⟨Nat.lt_of_lt_of_le (hs gid c hget).1 h,
     cacheWf_mono h (hs gid c hget).2⟩

/-- A well-formed slot table has no entry at or above the counter; in
particular a freshly built graph has no hidden properties. -/
theorem slotWf_get_none {n : Nat} {s : List (Nat × Cache)}
    (hs : SlotWf n s) (k : Nat) (hk : n ≤ k) :
    assocGet s k = Option.none := by
  cases hget : assocGet s k with
  | none => rfl
  | some c =>
    have := (hs k c hget).1
    omega

theorem cacheWf_assocSet {n : Nat} {c : Cache} (hc : CacheWf n c)
    (i : Iface) (v : Value) (hv : ∀ a, v = Value.obj a → a < n) :
    CacheWf n (assocSet c i v) := by
  intro i2 a hget
  rw [assocGet_assocSet] at hget
  by_cases hi : i = i2
  · rw [if_pos hi] at hget
    cases hget
    exact hv a rfl
  · rw [if_neg hi] at hget
    exact hc i2 a hget

theorem wf_setSing {st : St} (hwf : St.Wf st) (gid : Nat) (i : Iface)
    (v : Value) (hv : ∀ a, v = Value.obj a → a < st.nextId) :
    St.Wf (setSing st gid i v) := by
  refine ⟨?_, hwf.2⟩
  intro gid2 c hget
  simp only [setSing, assocGet_assocUpdate] at hget
  by_cases hg : gid = gid2
  · rw [if_pos hg] at hget
    cases hc : assocGet st.sing gid with
    | none => rw [hc] at hget; cases hget
    | some c0 =>
      rw [hc] at hget
      cases hget
      subst hg
      exact ⟨(hwf.1 gid c0 hc).1, cacheWf_assocSet (hwf.1 gid c0 hc).2 i v hv⟩
  · rw [if_neg hg] at hget
    exact hwf.1 gid2 c hget

theorem wf_setWeak {st : St} (hwf : St.Wf st) (gid : Nat) (i : Iface)
    (v : Value) (hv : ∀ a, v = Value.obj a → a < st.nextId) :
    St.Wf (setWeak st gid i v) := by
  refine ⟨hwf.1, ?_⟩
  intro gid2 c hget
  simp only [setWeak, assocGet_assocUpdate] at hget
  by_cases hg : gid = gid2
  · rw [if_pos hg] at hget
    cases hc : assocGet st.weakp gid with
    | none => rw [hc] at hget; cases hget
    | some c0 =>
      rw [hc] at hget
      cases hget
      subst hg
      exact ⟨(hwf.2 gid c0 hc).1, cacheWf_assocSet (hwf.2 gid c0 hc).2 i v hv⟩
  · rw [if_neg hg] at hget
    exact hwf.2 gid2 c hget

theorem wf_define {st : St} (hwf : St.Wf st) (gid : Nat)
    (hgid : gid < st.nextId) :
    St.Wf { st with sing := assocSet st.sing gid [] } := by
  refine ⟨?_, hwf.2⟩
  intro gid2 c hget
  simp only [assocGet_assocSet] at hget
  by_cases hg : gid = gid2
  · rw [if_pos hg] at hget
    cases hget
    subst hg
    exact ⟨hgid, fun i a h => by cases h⟩
  · rw [if_neg hg] at hget
    exact hwf.1 gid2 c hget

theorem wf_bump {st : St} (hwf : St.Wf st) (i : Iface) :
    St.Wf { st with nextId := st.nextId + 1, calls := st.calls ++ [i] } :=
  ⟨slotWf_mono (Nat.le_succ _) hwf.1, slotWf_mono (Nat.le_succ _) hwf.2⟩

/-- Well-formedness through a dependency list.  N is a lower bound on
the allocation counter (the graph id plus one at the instantiation),
threaded so the defineProperty sites know the graph id is already
allocated. -/
theorem wf_resolveDepsWith (res : Iface → St → Except Err (Value × St))
    (N : Nat)
    (Hstep : ∀ d st v st2, res d st = Except.ok (v, st2) → StepOk st st2)
    (H : ∀ d st v st2, St.Wf st → N ≤ st.nextId →
      res d st = Except.ok (v, st2) →
      St.Wf st2 ∧ ∀ a, v = Value.obj a → a < st2.nextId) :
    ∀ (deps : List Iface) (st st2 : St), St.Wf st → N ≤ st.nextId →
      resolveDepsWith res deps st = Except.ok st2 → St.Wf st2 := by
  intro deps
  induction deps with
  | nil =>
    intro st st2 hwf hN h
    simp only [resolveDepsWith] at h
    cases h
    exact hwf
  | cons d rest ih =>
    intro st st2 hwf hN h
    simp only [resolveDepsWith] at h
    cases hres : res d st with
    | error e => rw [hres] at h; cases h
    | ok p =>
      obtain ⟨v, st1⟩ := p
      rw [hres] at h
      have h1 := H d st v st1 hwf hN hres
      have hnid := (Hstep d st v st1 hres).nid
      exact ih st1 st2 h1.1 (Nat.le_trans hN hnid) h

/-- Well-formedness through one maker invocation; the produced object
is freshly allocated so its id is below the resulting counter. -/
theorem wf_runMakerWith (res : Iface → St → Except Err (Value × St))
    (N : Nat)
    (Hstep : ∀ d st v st2, res d st = Except.ok (v, st2) → StepOk st st2)
    (H : ∀ d st v st2, St.Wf st → N ≤ st.nextId →
      res d st = Except.ok (v, st2) →
      St.Wf st2 ∧ ∀ a, v = Value.obj a → a < st2.nextId)
    (ct : Ctor) (i : Iface) (st : St) (v : Value) (st2 : St)
    (hwf : St.Wf st) (hN : N ≤ st.nextId)
    (h : runMakerWith res ct i st = Except.ok (v, st2)) :
    St.Wf st2 ∧ ∀ a, v = Value.obj a → a < st2.nextId := by
  simp only [runMakerWith] at h
  cases hdeps : resolveDepsWith res ct.deps
      { st with nextId := st.nextId + 1, calls := st.calls ++ [i] } with
  | error e => rw [hdeps] at h; cases h
  | ok st1 =>
    rw [hdeps] at h
    cases h
    have hwf1 := wf_resolveDepsWith res N Hstep H ct.deps _ _
      (wf_bump hwf i) (Nat.le_trans hN (Nat.le_succ _)) hdeps
    have hnid := (stepOk_resolveDepsWith res Hstep ct.deps _ _ hdeps).nid
    refine ⟨hwf1, ?_⟩
    intro a ha
    cases ha
    simp only at hnid
    omega

/-- Well-formedness through one scope-wrapped provider invocation. -/
theorem wf_runScopeWith (res : Iface → St → Except Err (Value × St))
    (N : Nat)
    (Hstep : ∀ d st v st2, res d st = Except.ok (v, st2) → StepOk st st2)
    (H : ∀ d st v st2, St.Wf st → N ≤ st.nextId →
      res d st = Except.ok (v, st2) →
      St.Wf st2 ∧ ∀ a, v = Value.obj a → a < st2.nextId)
    (sk : ScopeKind) (ct : Ctor) (gid : Nat) (i : Iface) (st : St)
    (v : Value) (st2 : St) (hgid : gid < N)
    (hwf : St.Wf st) (hN : N ≤ st.nextId)
    (h : runScopeWith res sk ct gid i st = Except.ok (v, st2)) :
    St.Wf st2 ∧ ∀ a, v = Value.obj a → a < st2.nextId := by
  cases sk with
  | none =>
    exact wf_runMakerWith res N Hstep H ct i st v st2 hwf hN h
  | singleton =>
    simp only [runScopeWith] at h
    split at h
    · rename_i c hslot
      split at h
      · rename_i v0 hkey
        cases h
        have hb : ∀ a, v = Value.obj a → a < st.nextId := by
          intro a ha
          subst ha
          exact (hwf.1 gid c hslot).2 i a hkey
        exact ⟨wf_setSing hwf gid i v hb, fun a ha => hb a ha⟩
      · rename_i hkey
        split at h
        · cases h
        · rename_i vm stm hmk
          cases h
          obtain ⟨hwfm, hbm⟩ :=
            wf_runMakerWith res N Hstep H ct i st _ _ hwf hN hmk
          exact ⟨wf_setSing hwfm gid i _ hbm, fun a ha => hbm a ha⟩
    · rename_i hslot
      split at h
      · cases h
      · rename_i vm stm hmk
        cases h
        have hwf1 : St.Wf { st with sing := assocSet st.sing gid [] } :=
          wf_define hwf gid (Nat.lt_of_lt_of_le hgid hN)
        obtain ⟨hwfm, hbm⟩ :=
          wf_runMakerWith res N Hstep H ct i _ _ _ hwf1 hN hmk
        exact ⟨wf_setSing hwfm gid i _ hbm, fun a ha => hbm a ha⟩
  | weak =>
    simp only [runScopeWith] at h
    split at h
    · rename_i c hslot
      split at h
      · rename_i v0 hkey
        cases h
        have hb : ∀ a, v = Value.obj a → a < st.nextId := by
          intro a ha
          subst ha
          exact (hwf.2 gid c hslot).2 i a hkey
        refine ⟨wf_setWeak hwf gid i Value.singletonFn (by intro a ha; cases ha),
          fun a ha => hb a ha⟩
      · rename_i hkey
        split at h
        · cases h
        · rename_i vm stm hmk
          cases h
          obtain ⟨hwfm, hbm⟩ :=
            wf_runMakerWith res N Hstep H ct i st _ _ hwf hN hmk
          exact ⟨wf_setWeak hwfm gid i Value.singletonFn
            (by intro a ha; cases ha), fun a ha => hbm a ha⟩
    · rename_i hslot
      split at h
      · cases h
      · rename_i hsing
        split at h
        · cases h
        · rename_i vm stm hmk
          cases h
          have hwf1 : St.Wf { st with sing := assocSet st.sing gid [] } :=
            wf_define hwf gid (Nat.lt_of_lt_of_le hgid hN)
          obtain ⟨hwfm, hbm⟩ :=
            wf_runMakerWith res N Hstep H ct i _ _ _ hwf1 hN hmk
          exact ⟨wf_setSing hwfm gid i Value.singletonFn
            (by intro a ha; cases ha), fun a ha => hbm a ha⟩

/-- Well-formedness through a full resolution: starting from a
well-formed world with an already-allocated graph, a successful
Graph.resolve keeps the world well-formed and returns a value whose
identity is below the resulting counter. -/
theorem wf_resolve :
    ∀ (fuel : Nat) (g : Graph) (i : Iface) (st : St) (v : Value) (st2 : St),
      g.gid < st.nextId → St.Wf st →
      resolve fuel g i st = Except.ok (v, st2) →
      St.Wf st2 ∧ ∀ a, v = Value.obj a → a < st2.nextId := by
  intro fuel
  induction fuel with
  | zero =>
    intro g i st v st2 hg hwf h
    simp only [resolve] at h
    cases hm : assocGet g.map i <;> rw [hm] at h <;> cases h
  | succ f ih =>
    intro g i st v st2 hg hwf h
    simp only [resolve] at h
    cases hm : assocGet g.map i with
    | none => rw [hm] at h; cases h
    | some b =>
      obtain ⟨sk, ct⟩ := b
      rw [hm] at h
      exact wf_runScopeWith _ (g.gid + 1)
        (fun d st3 v2 st4 hh => stepOk_resolve f g d st3 v2 st4 hh)
        (fun d st3 v2 st4 hwf3 hN3 hh => ih g d st3 v2 st4 hN3 hwf3 hh)
        sk ct g.gid i st v st2 (Nat.lt_succ_self _) hwf
        hg h

/-- Cache coverage order: every populated cache key of the first world
is populated in the second (values may differ). -/
def KeysLe (a b : St) : Prop := ∀ gid i, KeyIn a gid i → KeyIn b gid i

theorem keysLe_refl (st : St) : KeysLe st st := fun _ _ h => h

theorem keysLe_trans {a b c : St} (h1 : KeysLe a b) (h2 : KeysLe b c) :
    KeysLe a c := fun gid i h => h2 gid i (h1 gid i h)

/-- No binding of the graph uses the weak scope. -/
def NoWeak (g : Graph) : Prop :=
  ∀ i sk ct, assocGet g.map i = Option.some (sk, ct) → sk ≠ ScopeKind.weak

/-- When a cache entry for the requested interface is present, the
singleton scope succeeds immediately from any state. -/
theorem runScopeWith_singleton_hit (res : Iface → St → Except Err (Value × St))
    (ct : Ctor) (gid : Nat) (i : Iface) (stB : St) (hk : KeyIn stB gid i) :
    ∃ v2 stB2,
      runScopeWith res ScopeKind.singleton ct gid i stB = Except.ok (v2, stB2) := by
  obtain ⟨c, hc, hkey⟩ := hk
  cases hv : assocGet c i with
  | none => rw [hv] at hkey; cases hkey
  | some vB => exact ⟨vB, setSing stB gid i vB, by simp [runScopeWith, hc, hv]⟩

/-- Success is monotone in the cache coverage for a dependency list:
if a run from stA succeeded and stB covers the final caches of that
run, the run from stB succeeds as well. -/
theorem succ_resolveDepsWith (res : Iface → St → Except Err (Value × St))
    (Hstep : ∀ d st v st2, res d st = Except.ok (v, st2) → StepOk st st2)
    (H : ∀ d stA v stA2 stB, res d stA = Except.ok (v, stA2) →
      KeysLe stA2 stB → ∃ v2 stB2, res d stB = Except.ok (v2, stB2)) :
    ∀ (deps : List Iface) (stA stA2 stB : St),
      resolveDepsWith res deps stA = Except.ok stA2 → KeysLe stA2 stB →
      ∃ stB2, resolveDepsWith res deps stB = Except.ok stB2 := by
  intro deps
  induction deps with
  | nil =>
    intro stA stA2 stB _ _
    exact ⟨stB, rfl⟩
  | cons d rest ih =>
    intro stA stA2 stB h hle
    simp only [resolveDepsWith] at h
    cases hres : res d stA with
    | error e => rw [hres] at h; cases h
    | ok p =>
      obtain ⟨v1, s1⟩ := p
      rw [hres] at h
      have hs1 : KeysLe s1 stA2 :=
        (stepOk_resolveDepsWith res Hstep rest s1 stA2 h).keys
      obtain ⟨v2, t1, hres2⟩ :=
        H d stA v1 s1 stB hres (keysLe_trans hs1 hle)
      obtain ⟨t2, hrest2⟩ := ih s1 stA2 t1 h
        (keysLe_trans hle (Hstep d stB v2 t1 hres2).keys)
      exact ⟨t2, by simp [resolveDepsWith, hres2, hrest2]⟩


/-- Success is monotone in the cache coverage for one maker
invocation. -/
theorem succ_runMakerWith (res : Iface → St → Except Err (Value × St))
    (Hstep : ∀ d st v st2, res d st = Except.ok (v, st2) → StepOk st st2)
    (H : ∀ d stA v stA2 stB, res d stA = Except.ok (v, stA2) →
      KeysLe stA2 stB → ∃ v2 stB2, res d stB = Except.ok (v2, stB2))
    (ct : Ctor) (i : Iface) (stA : St) (v : Value) (stA2 : St) (stB : St)
    (h : runMakerWith res ct i stA = Except.ok (v, stA2))
    (hle : KeysLe stA2 stB) :
    ∃ v2 stB2, runMakerWith res ct i stB = Except.ok (v2, stB2) := by
  simp only [runMakerWith] at h
  cases hdeps : resolveDepsWith res ct.deps
      { stA with nextId := stA.nextId + 1, calls := stA.calls ++ [i] } with
  | error e => rw [hdeps] at h; cases h
  | ok s1 =>
    rw [hdeps] at h
    cases h
    obtain ⟨t1, hdeps2⟩ := succ_resolveDepsWith res Hstep H ct.deps _ _
      { stB with nextId := stB.nextId + 1, calls := stB.calls ++ [i] }
      hdeps (fun gid i2 hk => hle gid i2 hk)
    exact ⟨Value.obj stB.nextId, t1, by simp [runMakerWith, hdeps2]⟩

/-- Success is monotone in the cache coverage for one scope-wrapped
provider invocation, for the none and singleton scopes. -/
theorem succ_runScopeWith (res : Iface → St → Except Err (Value × St))
    (Hstep : ∀ d st v st2, res d st = Except.ok (v, st2) → StepOk st st2)
    (H : ∀ d stA v stA2 stB, res d stA = Except.ok (v, stA2) →
      KeysLe stA2 stB → ∃ v2 stB2, res d stB = Except.ok (v2, stB2))
    (sk : ScopeKind) (ct : Ctor) (gid : Nat) (i : Iface)
    (stA : St) (v : Value) (stA2 : St) (stB : St)
    (hsk : sk ≠ ScopeKind.weak)
    (h : runScopeWith res sk ct gid i stA = Except.ok (v, stA2))
    (hle : KeysLe stA2 stB) :
    ∃ v2 stB2, runScopeWith res sk ct gid i stB = Except.ok (v2, stB2) := by
  cases sk with
  | weak => exact absurd rfl hsk
  | none =>
    exact succ_runMakerWith res Hstep H ct i stA v stA2 stB h hle
  | singleton =>
    have hstep := stepOk_runScopeWith res Hstep ScopeKind.singleton ct gid i
      stA v stA2 h
    simp only [runScopeWith] at h
    split at h
    · rename_i cA hslotA
      split at h
      · -- the A run hit its cache, so the key is populated in stB too
        rename_i vA hkeyA
        refine runScopeWith_singleton_hit res ct gid i stB ?_
        refine hle gid i (hstep.keys gid i ⟨cA, hslotA, ?_⟩)
        simp [hkeyA]
      · rename_i hkeyA
        split at h
        · cases h
        · rename_i vm stm hmk
          cases h
          -- the B run either hits its cache or re-runs the maker
          cases hslotB : assocGet stB.sing gid with
          | some cB =>
            cases hkeyB : assocGet cB i with
            | some vB =>
              exact runScopeWith_singleton_hit res ct gid i stB
                ⟨cB, hslotB, by simp [hkeyB]⟩
            | none =>
              have hmle : KeysLe stm stB :=
                keysLe_trans (stepOk_setSing stm gid i v).keys hle
              obtain ⟨v2, t2, hmk2⟩ :=
                succ_runMakerWith res Hstep H ct i stA v stm stB hmk hmle
              exact ⟨v2, setSing t2 gid i v2,
                by simp [runScopeWith, hslotB, hkeyB, hmk2]⟩
          | none =>
            have hmle : KeysLe stm
                { stB with sing := assocSet stB.sing gid [] } :=
              keysLe_trans (stepOk_setSing stm gid i v).keys
                (keysLe_trans hle (stepOk_define stB gid hslotB).keys)
            obtain ⟨v2, t2, hmk2⟩ :=
              succ_runMakerWith res Hstep H ct i stA v stm _ hmk hmle
            exact ⟨v2, setSing t2 gid i v2,
              by simp [runScopeWith, hslotB, hmk2]⟩
    · rename_i hslotA
      split at h
      · cases h
      · rename_i vm stm hmk
        cases h
        cases hslotB : assocGet stB.sing gid with
        | some cB =>
          cases hkeyB : assocGet cB i with
          | some vB =>
            exact runScopeWith_singleton_hit res ct gid i stB
              ⟨cB, hslotB, by simp [hkeyB]⟩
          | none =>
            have hmle : KeysLe stm stB :=
              keysLe_trans (stepOk_setSing stm gid i v).keys hle
            obtain ⟨v2, t2, hmk2⟩ :=
              succ_runMakerWith res Hstep H ct i _ v stm stB hmk hmle
            exact ⟨v2, setSing t2 gid i v2,
              by simp [runScopeWith, hslotB, hkeyB, hmk2]⟩
        | none =>
          have hmle : KeysLe stm
              { stB with sing := assocSet stB.sing gid [] } :=
            keysLe_trans (stepOk_setSing stm gid i v).keys
              (keysLe_trans hle (stepOk_define stB gid hslotB).keys)
          obtain ⟨v2, t2, hmk2⟩ :=
            succ_runMakerWith res Hstep H ct i _ v stm _ hmk hmle
          exact ⟨v2, setSing t2 gid i v2,
            by simp [runScopeWith, hslotB, hmk2]⟩

/-- Success is monotone in the cache coverage for a full resolution on
a graph with no weak-scoped binding: whenever a resolution succeeded
once, it succeeds again from any later (cache-richer) world with the
same fuel. -/
theorem succ_resolve :
    ∀ (fuel : Nat) (g : Graph), NoWeak g →
      ∀ (i : Iface) (stA : St) (v : Value) (stA2 : St) (stB : St),
        resolve fuel g i stA = Except.ok (v, stA2) → KeysLe stA2 stB →
        ∃ v2 stB2, resolve fuel g i stB = Except.ok (v2, stB2) := by
  intro fuel
  induction fuel with
  | zero =>
    intro g hnw i stA v stA2 stB h hle
    simp only [resolve] at h
    cases hm : assocGet g.map i <;> rw [hm] at h <;> cases h
  | succ f ih =>
    intro g hnw i stA v stA2 stB h hle
    simp only [resolve] at h
    cases hm : assocGet g.map i with
    | none => rw [hm] at h; cases h
    | some b =>
      obtain ⟨sk, ct⟩ := b
      rw [hm] at h
      obtain ⟨v2, stB2, h2⟩ := succ_runScopeWith
        (fun d st2 => resolve f g d st2)
        (fun d st3 v3 st4 hh => stepOk_resolve f g d st3 v3 st4 hh)
        (fun d st3 v3 st4 st5 hh hl => ih g hnw d st3 v3 st4 st5 hh hl)
        sk ct g.gid i stA v stA2 stB (hnw i sk ct hm) h hle
      exact ⟨v2, stB2, by simp [resolve, hm, h2]⟩

/-- Unfolding lemma: with fuel available, resolving a bound interface
runs its scope wrapper on the graph and token. -/
theorem resolve_bound (f : Nat) (g : Graph) (i : Iface) (st : St)
    (sk : ScopeKind) (ct : Ctor)
    (hm : assocGet g.map i = Option.some (sk, ct)) :
    resolve (f + 1) g i st =
      runScopeWith (fun d st2 => resolve f g d st2) sk ct g.gid i st := by
  simp [resolve, hm]

/-- A maker always returns the object allocated at its entry. -/
theorem runMakerWith_obj (res : Iface → St → Except Err (Value × St))
    (ct : Ctor) (i : Iface) (st : St) (v : Value) (st2 : St)
    (h : runMakerWith res ct i st = Except.ok (v, st2)) :
    v = Value.obj st.nextId := by
  simp only [runMakerWith] at h
  split at h
  · cases h
  · cases h
    rfl

/-- Claim C2: for every graph G and every interface token J with no
binding in G, G.resolve(J) fails with the unsatisfied-dependency error
carrying the requested interface identity; it never returns a value. -/
theorem resolve_unbound_unsatisfied (fuel : Nat) (g : Graph) (i : Iface)
    (st : St) (h : assocGet g.map i = Option.none) :
    resolve fuel g i st = Except.error (Err.unsatisfied i) := by
  cases fuel <;> simp [resolve, h]

/-- Witness for C2 at a concrete unbound token. -/
theorem resolve_unbound_unsatisfied_witness :
    resolve 5 ⟨0, []⟩ 42 St.init = Except.error (Err.unsatisfied 42) :=
  resolve_unbound_unsatisfied 5 ⟨0, []⟩ 42 St.init rfl

/-- After a successful singleton-scoped resolution, the cache on the
resolved graph holds the returned value for the interface. -/
theorem singleton_resolve_post (f : Nat) (g : Graph) (i : Iface) (ct : Ctor)
    (st : St) (v : Value) (st2 : St)
    (hm : assocGet g.map i = Option.some (ScopeKind.singleton, ct))
    (h : resolve f g i st = Except.ok (v, st2)) :
    ∃ c, assocGet st2.sing g.gid = Option.some c ∧
      assocGet c i = Option.some v := by
  cases f with
  | zero =>
    simp only [resolve] at h
    rw [hm] at h
    cases h
  | succ f =>
    rw [resolve_bound f g i st _ _ hm] at h
    simp only [runScopeWith] at h
    split at h
    · rename_i c hslot
      split at h
      · rename_i v0 hkey
        cases h
        refine ⟨assocSet c i v, ?_, ?_⟩
        · simp [setSing, assocGet_assocUpdate, hslot]
        · simp [assocGet_assocSet]
      · rename_i hkey
        split at h
        · cases h
        · rename_i vm stm hmk
          cases h
          have hpres := (stepOk_runMakerWith _
            (fun d st3 v3 st4 hh => stepOk_resolve f g d st3 v3 st4 hh)
            ct i st _ _ hmk).slot g.gid (by simp [hslot])
          cases hslot2 : assocGet stm.sing g.gid with
          | none => rw [hslot2] at hpres; cases hpres
          | some c2 =>
            refine ⟨assocSet c2 i v, ?_, ?_⟩
            · simp [setSing, assocGet_assocUpdate, hslot2]
            · simp [assocGet_assocSet]
    · rename_i hslot
      split at h
      · cases h
      · rename_i vm stm hmk
        cases h
        have hpres := (stepOk_runMakerWith _
          (fun d st3 v3 st4 hh => stepOk_resolve f g d st3 v3 st4 hh)
          ct i _ _ _ hmk).slot g.gid (by simp [assocGet_assocSet])
        cases hslot2 : assocGet stm.sing g.gid with
        | none => rw [hslot2] at hpres; cases hpres
        | some c2 =>
          refine ⟨assocSet c2 i v, ?_, ?_⟩
          · simp [setSing, assocGet_assocUpdate, hslot2]
          · simp [assocGet_assocSet]

/-- Claim C3: for every graph G and interface I bound in G with scope
singleton, once a resolution of I succeeds with instance v and world
st2, every further resolution of I on G returns the very same instance
v and leaves the world untouched (so the provider is not invoked
again; the call log in the world is unchanged). -/
theorem singleton_resolve_stable (f : Nat) (g : Graph) (i : Iface)
    (ct : Ctor) (st : St) (v : Value) (st2 : St)
    (hm : assocGet g.map i = Option.some (ScopeKind.singleton, ct))
    (h : resolve f g i st = Except.ok (v, st2)) :
    ∀ f2, resolve (f2 + 1) g i st2 = Except.ok (v, st2) := by
  obtain ⟨c, hslot, hkey⟩ := singleton_resolve_post f g i ct st v st2 hm h
  intro f2
  rw [resolve_bound f2 g i st2 _ _ hm]
  have hfix : setSing st2 g.gid i v = st2 := by
    simp only [setSing]
    rw [assocUpdate_of_fix st2.sing g.gid _ c hslot
      (assocSet_self_of_get c i v hkey)]
  simp [runScopeWith, hslot, hkey, hfix]

/-- Witness for C3: a concrete singleton binding resolved once; the
repeat call returns the identical instance and the identical world. -/
theorem singleton_resolve_stable_witness :
    resolve 3 ⟨0, [(7, (ScopeKind.singleton, Ctor.empty))]⟩ 7
        ⟨2, [(0, [(7, Value.obj 1)])], [], [7]⟩ =
      Except.ok (Value.obj 1, ⟨2, [(0, [(7, Value.obj 1)])], [], [7]⟩) :=
  singleton_resolve_stable 1 ⟨0, [(7, (ScopeKind.singleton, Ctor.empty))]⟩ 7
    Ctor.empty ⟨1, [], [], []⟩ (Value.obj 1)
    ⟨2, [(0, [(7, Value.obj 1)])], [], [7]⟩ rfl rfl 2

/-- Claim C1 counterexample: add performs no runtime dependency check.
At a concrete input, adding a binding for token 1 whose constructor
requires token 2, to a builder that only binds token 0, raises nothing
and returns a builder that stores the binding for 1 while 2 is
unbound, contradicting that add fails before the binding is stored. -/
theorem add_unmet_dependency_stored :
    assocGet ((GraphBuilder.start 0 ScopeKind.none).add 1
        (Ctor.graphDep [2]) ScopeKind.none).map 1 =
      Option.some (ScopeKind.none, Ctor.graphDep [2]) ∧
    assocGet ((GraphBuilder.start 0 ScopeKind.none).add 1
        (Ctor.graphDep [2]) ScopeKind.none).map 2 = Option.none :=
  ⟨rfl, rfl⟩

/-- Claim C1 as amended: add never fails at runtime; it stores the
binding under any scope and returns the new builder (the dependency
check of the original is the compile-time type constraint whose result
type degenerates to never).  The unmet dependency surfaces only at
resolution time: resolving the added interface on a graph built from
the new builder fails with the unsatisfied-dependency error naming the
missing interface. -/
theorem add_unmet_dependency_resolve_fails (b : GraphBuilder) (i d : Iface)
    (rest : List Iface) (st st2 : St) (f : Nat)
    (hne : i ≠ d) (hd : assocGet b.map d = Option.none) :
    (∀ sk2, assocGet (b.add i (Ctor.graphDep (d :: rest)) sk2).map i =
      Option.some (sk2, Ctor.graphDep (d :: rest))) ∧
    resolve (f + 1)
        ((b.add i (Ctor.graphDep (d :: rest)) ScopeKind.none).build st).1
        i st2 =
      Except.error (Err.unsatisfied d) := by
  constructor
  · intro sk2
    simp [GraphBuilder.add, assocGet_assocSet]
  · have hmi : assocGet
        ((b.add i (Ctor.graphDep (d :: rest)) ScopeKind.none).build st).1.map
        i = Option.some (ScopeKind.none, Ctor.graphDep (d :: rest)) := by
      simp [GraphBuilder.add, GraphBuilder.build, assocGet_assocSet]
    have hmd : assocGet
        ((b.add i (Ctor.graphDep (d :: rest)) ScopeKind.none).build st).1.map
        d = Option.none := by
      show assocGet (assocSet b.map i (ScopeKind.none, Ctor.graphDep (d :: rest))) d
        = Option.none
      rw [assocGet_assocSet, if_neg hne]
      exact hd
    rw [resolve_bound f _ i st2 _ _ hmi]
    simp only [runScopeWith, runMakerWith, Ctor.deps, resolveDepsWith]
    rw [resolve_unbound_unsatisfied f _ d _ hmd]

/-- Witness for the amended C1 at a concrete input. -/
theorem add_unmet_dependency_resolve_fails_witness :
    (∀ sk2, assocGet ((GraphBuilder.start 0 ScopeKind.none).add 1
        (Ctor.graphDep [2]) sk2).map 1 =
      Option.some (sk2, Ctor.graphDep [2])) ∧
    resolve 1
        (((GraphBuilder.start 0 ScopeKind.none).add 1
          (Ctor.graphDep [2]) ScopeKind.none).build St.init).1
        1 ⟨1, [], [], []⟩ =
      Except.error (Err.unsatisfied 2) :=
  add_unmet_dependency_resolve_fails (GraphBuilder.start 0 ScopeKind.none)
    1 2 [] St.init ⟨1, [], [], []⟩ 0 (by decide) rfl

/-- Claim C5: add is a persistent update.  The new builder equals the
old one plus exactly the one extra binding; the old builder is
unaffected: a graph built from it still fails to resolve the added
interface with the unsatisfied-dependency error, while a graph built
from the new builder carries the binding. -/
theorem add_persistent (b : GraphBuilder) (i : Iface) (ct : Ctor)
    (sk : ScopeKind) (st st2 : St) (f : Nat)
    (hi : assocGet b.map i = Option.none) :
    (∀ j, assocGet (b.add i ct sk).map j =
      if i = j then Option.some (sk, ct) else assocGet b.map j) ∧
    resolve f (b.build st).1 i st2 = Except.error (Err.unsatisfied i) ∧
    assocGet ((b.add i ct sk).build st).1.map i = Option.some (sk, ct) := by
  refine ⟨?_, ?_, ?_⟩
  · intro j
    simp [GraphBuilder.add, assocGet_assocSet]
  · exact resolve_unbound_unsatisfied f _ i st2 hi
  · simp [GraphBuilder.add, GraphBuilder.build, assocGet_assocSet]

/-- Witness for C5 at a concrete input. -/
theorem add_persistent_witness :
    resolve 4 ((GraphBuilder.start 0 ScopeKind.none).build St.init).1 1
        ⟨1, [], [], []⟩ = Except.error (Err.unsatisfied 1) ∧
    assocGet (((GraphBuilder.start 0 ScopeKind.none).add 1 Ctor.empty
        ScopeKind.none).build St.init).1.map 1 =
      Option.some (ScopeKind.none, Ctor.empty) :=
  ⟨(add_persistent (GraphBuilder.start 0 ScopeKind.none) 1 Ctor.empty
      ScopeKind.none St.init ⟨1, [], [], []⟩ 4 rfl).2.1,
   (add_persistent (GraphBuilder.start 0 ScopeKind.none) 1 Ctor.empty
      ScopeKind.none St.init ⟨1, [], [], []⟩ 4 rfl).2.2⟩

/-- Claim C8: rebinding an already-bound token succeeds with no error
(add is total), the new builder maps the token to the new binding
(last-write-wins), and a graph built from the new builder resolves the
token through the newly bound scope and constructor, not the earlier
one. -/
theorem add_rebind_last_wins (b : GraphBuilder) (i : Iface)
    (sk1 : ScopeKind) (ct1 : Ctor) (sk2 : ScopeKind) (ct2 : Ctor)
    (st st2 : St) (f : Nat)
    (hb : assocGet b.map i = Option.some (sk1, ct1)) :
    assocGet (b.add i ct2 sk2).map i = Option.some (sk2, ct2) ∧
    resolve (f + 1) ((b.add i ct2 sk2).build st).1 i st2 =
      runScopeWith
        (fun d st3 => resolve f ((b.add i ct2 sk2).build st).1 d st3)
        sk2 ct2 ((b.add i ct2 sk2).build st).1.gid i st2 := by
  constructor
  · simp [GraphBuilder.add, assocGet_assocSet]
  · exact resolve_bound f _ i st2 sk2 ct2
      (by simp [GraphBuilder.add, GraphBuilder.build, assocGet_assocSet])

/-- Witness for C8 at a concrete input: token 3 is rebound from the
none scope to the singleton scope; resolution runs the new binding. -/
theorem add_rebind_last_wins_witness :
    assocGet ((GraphBuilder.start 3 ScopeKind.none).add 3 Ctor.empty
        ScopeKind.singleton).map 3 =
      Option.some (ScopeKind.singleton, Ctor.empty) ∧
    resolve 1 (((GraphBuilder.start 3 ScopeKind.none).add 3 Ctor.empty
        ScopeKind.singleton).build St.init).1 3 ⟨1, [], [], []⟩ =
      runScopeWith
        (fun d st3 => resolve 0 (((GraphBuilder.start 3 ScopeKind.none).add 3
          Ctor.empty ScopeKind.singleton).build St.init).1 d st3)
        ScopeKind.singleton Ctor.empty
        (((GraphBuilder.start 3 ScopeKind.none).add 3 Ctor.empty
          ScopeKind.singleton).build St.init).1.gid 3 ⟨1, [], [], []⟩ :=
  add_rebind_last_wins (GraphBuilder.start 3 ScopeKind.none) 3
    ScopeKind.none Ctor.empty ScopeKind.singleton Ctor.empty
    St.init ⟨1, [], [], []⟩ 0 rfl

/-- Claim C9: build takes an immutable snapshot and does not consume
the builder.  The built graph holds exactly the builder map; the
builder remains usable afterwards (a further add stores its binding
and a further build snapshots the extended map); and no later add on
the builder changes what the first graph resolves: an interface that
was unbound stays unresolvable on it, with the unsatisfied-dependency
error. -/
theorem build_snapshot (b : GraphBuilder) (st : St) (i : Iface) (ct : Ctor)
    (sk : ScopeKind) (st2 : St) (f : Nat)
    (hi : assocGet b.map i = Option.none) :
    ((b.build st).1.map = b.map) ∧
    (assocGet (b.add i ct sk).map i = Option.some (sk, ct)) ∧
    (((b.add i ct sk).build (b.build st).2).1.map =
      assocSet b.map i (sk, ct)) ∧
    (resolve f (b.build st).1 i st2 = Except.error (Err.unsatisfied i)) := by
  refine ⟨rfl, ?_, rfl, ?_⟩
  · simp [GraphBuilder.add, assocGet_assocSet]
  · exact resolve_unbound_unsatisfied f _ i st2 hi

/-- Witness for C9 at a concrete input. -/
theorem build_snapshot_witness :
    (((GraphBuilder.start 0 ScopeKind.none).build St.init).1.map =
      (GraphBuilder.start 0 ScopeKind.none).map) ∧
    (assocGet ((GraphBuilder.start 0 ScopeKind.none).add 1 Ctor.empty
        ScopeKind.none).map 1 = Option.some (ScopeKind.none, Ctor.empty)) ∧
    ((((GraphBuilder.start 0 ScopeKind.none).add 1 Ctor.empty
        ScopeKind.none).build
        ((GraphBuilder.start 0 ScopeKind.none).build St.init).2).1.map =
      assocSet (GraphBuilder.start 0 ScopeKind.none).map 1
        (ScopeKind.none, Ctor.empty)) ∧
    (resolve 2 ((GraphBuilder.start 0 ScopeKind.none).build St.init).1 1
        ⟨5, [], [], []⟩ = Except.error (Err.unsatisfied 1)) :=
  build_snapshot (GraphBuilder.start 0 ScopeKind.none) St.init 1 Ctor.empty
    ScopeKind.none ⟨5, [], [], []⟩ 2 rfl

/-- Postcondition of a successful weak-scoped resolution on a graph
with no weakSymbol property (the shipped code never creates one): the
returned value is a freshly constructed object, the weakSymbol
property is still absent afterwards, yet the singletonSymbol property
now exists and caches the scopes.singleton function itself for the
token (index.ts lines 152 and 160). -/
theorem weak_resolve_post (f : Nat) (g : Graph) (i : Iface) (ct : Ctor)
    (st : St) (v : Value) (st2 : St)
    (hm : assocGet g.map i = Option.some (ScopeKind.weak, ct))
    (hw : assocGet st.weakp g.gid = Option.none)
    (h : resolve f g i st = Except.ok (v, st2)) :
    (∃ a, v = Value.obj a) ∧
    assocGet st2.weakp g.gid = Option.none ∧
    ∃ c, assocGet st2.sing g.gid = Option.some c ∧
      assocGet c i = Option.some Value.singletonFn := by
  cases f with
  | zero =>
    simp only [resolve] at h
    rw [hm] at h
    cases h
  | succ f =>
    rw [resolve_bound f g i st _ _ hm] at h
    simp only [runScopeWith] at h
    split at h
    · rename_i c hslot
      rw [hw] at hslot
      cases hslot
    · rename_i hslot
      split at h
      · cases h
      · rename_i hsing
        split at h
        · cases h
        · rename_i vm stm hmk
          cases h
          have hstep := stepOk_runMakerWith _
            (fun d st3 v3 st4 hh => stepOk_resolve f g d st3 v3 st4 hh)
            ct i _ _ _ hmk
          have hv := runMakerWith_obj _ ct i _ v stm hmk
          have hwm : assocGet stm.weakp g.gid = Option.none := by
            cases hq : assocGet stm.weakp g.gid with
            | none => rfl
            | some c0 =>
              have h2 : (assocGet st.weakp g.gid).isSome = true :=
                hstep.weakDom g.gid (by simp [hq])
              rw [hw] at h2
              simp at h2
          have hpres := hstep.slot g.gid (by simp [assocGet_assocSet])
          refine ⟨⟨_, hv⟩, hwm, ?_⟩
          cases hslot2 : assocGet stm.sing g.gid with
          | none => rw [hslot2] at hpres; simp at hpres
          | some c2 =>
            exact ⟨assocSet c2 i Value.singletonFn,
              by simp [setSing, assocGet_assocUpdate, hslot2],
              by simp [assocGet_assocSet]⟩

/-- Claim C7: as literally written, a successful weak-scoped
resolution registers its cache on the graph under the hidden
singletonSymbol key (the weakSymbol property stays absent), and it
stores the scopes.singleton function itself as the cached value for
the interface token, while the value actually returned to the caller
is the constructed object. -/
theorem weak_registers_under_singleton_symbol (f : Nat) (g : Graph)
    (i : Iface) (ct : Ctor) (st : St) (v : Value) (st2 : St)
    (hm : assocGet g.map i = Option.some (ScopeKind.weak, ct))
    (hw : assocGet st.weakp g.gid = Option.none)
    (h : resolve f g i st = Except.ok (v, st2)) :
    (∃ a, v = Value.obj a) ∧
    assocGet st2.weakp g.gid = Option.none ∧
    ∃ c, assocGet st2.sing g.gid = Option.some c ∧
      assocGet c i = Option.some Value.singletonFn :=
  weak_resolve_post f g i ct st v st2 hm hw h

/-- Witness for C7 at a concrete input: after resolving the
weak-scoped token 9 once, the graph holds no weakSymbol property, and
its singletonSymbol cache maps token 9 to the singleton scope
function, while the caller received the object. -/
theorem weak_registers_under_singleton_symbol_witness :
    (∃ a, Value.obj 1 = Value.obj a) ∧
    assocGet ([] : List (Nat × Cache)) 0 = Option.none ∧
    ∃ c, assocGet [(0, [(9, Value.singletonFn)])] 0 = Option.some c ∧
      assocGet c 9 = Option.some Value.singletonFn :=
  weak_registers_under_singleton_symbol 1
    ⟨0, [(9, (ScopeKind.weak, Ctor.empty))]⟩ 9 Ctor.empty
    ⟨1, [], [], []⟩ (Value.obj 1)
    ⟨2, [(0, [(9, Value.singletonFn)])], [], [9]⟩ rfl rfl rfl

/-- Claim C10: for every graph G with an interface bound with scope
weak, once a weak-scoped resolution has succeeded (which defines the
hidden singletonSymbol property on G), every further resolution of
that interface throws the TypeError raised by re-defining the
non-configurable singletonSymbol property, instead of returning an
instance. -/
theorem weak_second_resolution_type_error (f : Nat) (g : Graph)
    (i : Iface) (ct : Ctor) (st : St) (v : Value) (st2 : St)
    (hm : assocGet g.map i = Option.some (ScopeKind.weak, ct))
    (hw : assocGet st.weakp g.gid = Option.none)
    (h : resolve f g i st = Except.ok (v, st2)) :
    ∀ f2, resolve (f2 + 1) g i st2 = Except.error Err.typeError := by
  obtain ⟨_, hw2, c, hsing2, _⟩ := weak_resolve_post f g i ct st v st2 hm hw h
  intro f2
  rw [resolve_bound f2 g i st2 _ _ hm]
  simp [runScopeWith, hw2, hsing2]

/-- Witness for C10 at a concrete input: the second resolution of the
weak-scoped token 9 throws the TypeError. -/
theorem weak_second_resolution_type_error_witness :
    resolve 1 ⟨0, [(9, (ScopeKind.weak, Ctor.empty))]⟩ 9
        ⟨2, [(0, [(9, Value.singletonFn)])], [], [9]⟩ =
      Except.error Err.typeError :=
  weak_second_resolution_type_error 1
    ⟨0, [(9, (ScopeKind.weak, Ctor.empty))]⟩ 9 Ctor.empty
    ⟨1, [], [], []⟩ (Value.obj 1)
    ⟨2, [(0, [(9, Value.singletonFn)])], [], [9]⟩ rfl rfl rfl 0

/-- Claim C4: scope caches are never shared across graph instances.
After any successful singleton-scoped resolution on G1 (from a
well-formed world in which G1 exists), the graph G2 produced by
G1.modify().build() starts with no hidden cache properties at all,
and resolving the same interface on G2 constructs a distinct
instance: the two resolved values differ. -/
theorem modify_build_fresh_caches (f : Nat) (g1 : Graph) (i : Iface)
    (ct : Ctor) (st : St) (v1 : Value) (st1 : St) (f2 : Nat)
    (v2 : Value) (st3 : St)
    (hm : assocGet g1.map i = Option.some (ScopeKind.singleton, ct))
    (hg : g1.gid < st.nextId) (hwf : St.Wf st)
    (h1 : resolve f g1 i st = Except.ok (v1, st1))
    (h2 : resolve f2 (g1.modify.build st1).1 i (g1.modify.build st1).2 =
      Except.ok (v2, st3)) :
    assocGet (g1.modify.build st1).2.sing (g1.modify.build st1).1.gid =
      Option.none ∧
    assocGet (g1.modify.build st1).2.weakp (g1.modify.build st1).1.gid =
      Option.none ∧
    v1 ≠ v2 := by
  obtain ⟨hwf1, hb1⟩ := wf_resolve f g1 i st v1 st1 hg hwf h1
  have e1 : assocGet (g1.modify.build st1).2.sing
      (g1.modify.build st1).1.gid = Option.none :=
    slotWf_get_none hwf1.1 st1.nextId (Nat.le_refl _)
  have e2 : assocGet (g1.modify.build st1).2.weakp
      (g1.modify.build st1).1.gid = Option.none :=
    slotWf_get_none hwf1.2 st1.nextId (Nat.le_refl _)
  refine ⟨e1, e2, ?_⟩
  have hm2 : assocGet (g1.modify.build st1).1.map i =
      Option.some (ScopeKind.singleton, ct) := hm
  cases f2 with
  | zero =>
    simp only [resolve] at h2
    rw [hm2] at h2
    cases h2
  | succ f2 =>
    rw [resolve_bound f2 _ i _ _ _ hm2] at h2
    simp only [runScopeWith] at h2
    split at h2
    · rename_i c hslot
      rw [e1] at hslot
      cases hslot
    · rename_i hslot
      split at h2
      · cases h2
      · rename_i vm stm hmk
        cases h2
        have hv2 : v2 = Value.obj (st1.nextId + 1) :=
          runMakerWith_obj _ ct i _ v2 stm hmk
        intro heq
        rw [heq, hv2] at hb1
        have := hb1 (st1.nextId + 1) rfl
        omega

/-- Witness for C4 at a concrete input: the singleton instance of
token 7 on G1 is object 1, while the rebuilt graph G2 constructs
object 3. -/
theorem modify_build_fresh_caches_witness :
    assocGet [(0, [(7, Value.obj 1)])] 2 = Option.none ∧
    assocGet ([] : List (Nat × Cache)) 2 = Option.none ∧
    Value.obj 1 ≠ Value.obj 3 :=
  modify_build_fresh_caches 1
    ⟨0, [(7, (ScopeKind.singleton, Ctor.empty))]⟩ 7 Ctor.empty
    ⟨1, [], [], []⟩ (Value.obj 1)
    ⟨2, [(0, [(7, Value.obj 1)])], [], [7]⟩ 1 (Value.obj 3)
    ⟨4, [(0, [(7, Value.obj 1)]), (2, [(7, Value.obj 3)])], [], [7, 7]⟩
    rfl (by decide)
    ⟨fun gid c h => by simp [assocGet] at h,
     fun gid c h => by simp [assocGet] at h⟩
    rfl rfl

/-- The shape of a successful none-scoped resolution: the provider is
invoked (the call is logged first), the value returned is the object
allocated at entry, and the allocation counter strictly grows. -/
theorem none_resolve_shape (f : Nat) (g : Graph) (i : Iface) (ct : Ctor)
    (st : St) (v : Value) (st2 : St)
    (hm : assocGet g.map i = Option.some (ScopeKind.none, ct))
    (h : resolve f g i st = Except.ok (v, st2)) :
    v = Value.obj st.nextId ∧ (∃ l, st2.calls = st.calls ++ i :: l) ∧
      st.nextId < st2.nextId := by
  cases f with
  | zero =>
    simp only [resolve] at h
    rw [hm] at h
    cases h
  | succ f =>
    rw [resolve_bound f g i st _ _ hm] at h
    simp only [runScopeWith, runMakerWith] at h
    split at h
    · cases h
    · rename_i s1 hdeps
      cases h
      have hstep := stepOk_resolveDepsWith _
        (fun d st3 v3 st4 hh => stepOk_resolve f g d st3 v3 st4 hh)
        ct.deps _ _ hdeps
      obtain ⟨l, hl⟩ := hstep.callsM
      have hn : st.nextId + 1 ≤ st2.nextId := hstep.nid
      refine ⟨rfl, ⟨l, ?_⟩, by omega⟩
      rw [hl]
      simp

/-- Claim C6 counterexample: on the graph binding token 10 with scope
weak and token 11 with scope none (where the provider of 11 resolves
10), the first resolution of the none-scoped token 11 succeeds but the
second one throws the TypeError of the weak scope, so it is not the
case that two consecutive resolutions of a none-scoped interface
always both succeed. -/
theorem none_second_call_weak_dep_fails :
    resolve 3 ⟨0, [(10, (ScopeKind.weak, Ctor.empty)),
        (11, (ScopeKind.none, Ctor.graphDep [10]))]⟩ 11 ⟨1, [], [], []⟩ =
      Except.ok (Value.obj 1,
        ⟨3, [(0, [(10, Value.singletonFn)])], [], [11, 10]⟩) ∧
    resolve 3 ⟨0, [(10, (ScopeKind.weak, Ctor.empty)),
        (11, (ScopeKind.none, Ctor.graphDep [10]))]⟩ 11
        ⟨3, [(0, [(10, Value.singletonFn)])], [], [11, 10]⟩ =
      Except.error Err.typeError :=
  ⟨rfl, rfl⟩

/-- Claim C6 as amended: for every graph G none of whose bindings uses
the weak scope, and interface I bound with scope none, a successful
resolution of I invokes the provider (logging the call) and returns
the freshly allocated object, and the immediately following resolution
of I succeeds as well, invokes the provider afresh, and returns a
distinct fresh instance. -/
theorem none_resolve_fresh_twice (f : Nat) (g : Graph) (i : Iface)
    (ct : Ctor) (st : St) (v : Value) (st2 : St)
    (hnw : NoWeak g)
    (hm : assocGet g.map i = Option.some (ScopeKind.none, ct))
    (h : resolve f g i st = Except.ok (v, st2)) :
    (v = Value.obj st.nextId ∧ ∃ l, st2.calls = st.calls ++ i :: l) ∧
    ∃ v2 st3, resolve f g i st2 = Except.ok (v2, st3) ∧
      v2 = Value.obj st2.nextId ∧
      (∃ l2, st3.calls = st2.calls ++ i :: l2) ∧ v ≠ v2 := by
  obtain ⟨hv1, hl1, hn1⟩ := none_resolve_shape f g i ct st v st2 hm h
  obtain ⟨v2, st3, h2⟩ :=
    succ_resolve f g hnw i st v st2 st2 h (keysLe_refl st2)
  obtain ⟨hv2, hl2, hn2⟩ := none_resolve_shape f g i ct st2 v2 st3 hm h2
  refine ⟨⟨hv1, hl1⟩, v2, st3, h2, hv2, hl2, ?_⟩
  rw [hv1, hv2]
  simp only [ne_eq, Value.obj.injEq]
  omega

/-- The coffee-shop style single none binding has no weak scope. -/
theorem noWeak_single_none (i : Iface) (ct : Ctor) :
    NoWeak ⟨0, [(i, (ScopeKind.none, ct))]⟩ := by
  intro i2 sk2 ct2 hh
  simp only [assocGet] at hh
  by_cases hi : i = i2
  · rw [if_pos hi] at hh
    cases hh
    intro hx
    cases hx
  · rw [if_neg hi] at hh
    cases hh

/-- Witness for the amended C6 at a concrete input: two consecutive
resolutions of the none-scoped token 5 both succeed, both log a
provider invocation, and return the distinct objects 1 and 2. -/
theorem none_resolve_fresh_twice_witness :
    (Value.obj 1 = Value.obj 1 ∧
      ∃ l, [5] = ([] : List Iface) ++ 5 :: l) ∧
    ∃ v2 st3,
      resolve 1 ⟨0, [(5, (ScopeKind.none, Ctor.empty))]⟩ 5
          ⟨2, [], [], [5]⟩ = Except.ok (v2, st3) ∧
      v2 = Value.obj 2 ∧
      (∃ l2, st3.calls = [5] ++ 5 :: l2) ∧ Value.obj 1 ≠ v2 :=
  none_resolve_fresh_twice 1 ⟨0, [(5, (ScopeKind.none, Ctor.empty))]⟩ 5
    Ctor.empty ⟨1, [], [], []⟩ (Value.obj 1) ⟨2, [], [], [5]⟩
    (noWeak_single_none 5 Ctor.empty) rfl rfl

end Fluoride
